import Mathlib

/-!
Verification of the fetch orchestration core of `scrape_images.py`.

The embedding models the script's pure control logic: the JSON result
store (a dict from canonical URL to an image URL or `null`), the
`fetch_image_url` retry loop, and the `main` orchestrator (pending-set
computation, failure-streak cooldown counters, periodic and final
flushes).  External effects are abstracted: the transport and the
extraction routine become an attempt-indexed outcome environment, sleeps
become counted events, and `random.shuffle` becomes an arbitrary
permutation parameter.
-/

/-- Module-level constant `BATCH_SAVE_EVERY = 20` from the script. -/
def BATCH_SAVE_EVERY : Nat := 20

/-- Module-level constant `MAX_RETRIES = 2` from the script. -/
def MAX_RETRIES : Nat := 2

/-- JSON values as they occur in the result-store file: the script only
ever writes strings and nulls, but a hand-edited file could hold other
scalars, which `json.load` accepts and the non-null filter keeps. -/
inductive Json where
  | null : Json
  | str (s : String) : Json
  | num (n : Int) : Json
  | jbool (b : Bool) : Json
deriving DecidableEq, Repr

/-- A Python dict from canonical URL to a JSON value, in insertion order. -/
abbrev Store := List (String × Json)

/-- Dict key lookup (`raw[k]` / `k in raw`): first entry with the key. -/
def dictGet : Store → String → Option Json
  | [], _ => none
  | kv :: rest, k => if kv.1 = k then some kv.2 else dictGet rest k

/-- Dict assignment `m[k] = v`: overwrite the existing entry in place, or
append a fresh entry at the end. -/
def dictInsert (m : Store) (k : String) (v : Json) : Store :=
  if m.any (fun kv => kv.1 = k) then
    m.map (fun kv => if kv.1 = k then (k, v) else kv)
  else
    m ++ [(k, v)]

/-- The state of the output file `catalog/images.json` as `main` finds it:
absent, present but rejected by `json.load`, or a parsed JSON object. -/
inductive StoreFile where
  | missing : StoreFile
  | malformed : StoreFile
  | parsed (raw : Store) : StoreFile
deriving DecidableEq, Repr

/-- The dict comprehension at line 95:
`{k: v for k, v in raw.items() if v is not None}`. -/
def resolvedOf (raw : Store) : Store :=
  raw.filter (fun kv => kv.2 ≠ Json.null)

/-- Lines 91-96 of `main`: missing file yields an empty mapping, a file
`json.load` rejects propagates the exception (fatal), and a parsed file
is filtered down to its non-null entries. -/
def loadExisting : StoreFile → Except Unit Store
  | StoreFile.missing => Except.ok []
  | StoreFile.malformed => Except.error ()
  | StoreFile.parsed raw => Except.ok (resolvedOf raw)

/-- Lines 85-88: build the set of canonical URLs from the catalog items;
an item contributes iff `item.get('canonical_url')` is truthy, i.e. the
field is present and non-empty.  `dedup` models set semantics. -/
def catalogUrls (items : List (Option String)) : List String :=
  ((items.filterMap id).filter (fun s => s ≠ "")).dedup

/-- Line 98: `to_scrape = [u for u in urls if u not in existing]`. -/
def computePending (urls : List String) (existing : Store) : List String :=
  urls.filter (fun u => (dictGet existing u).isNone)

/-- What one transport attempt inside the `try` block of
`fetch_image_url` does, as seen from the pure core: the page was fetched
and extraction returned (possibly nothing), extraction raised, the
transport raised `HTTPError(code)`, or the transport raised some other
exception. -/
inductive AttemptOutcome where
  | success (extracted : Option String) : AttemptOutcome
  | extractRaise : AttemptOutcome
  | httpError (code : Nat) : AttemptOutcome
  | otherError : AttemptOutcome

/-- The exceptions `fetch_image_url` distinguishes: `HTTPError` with its
status code, and every other `Exception`. -/
inductive PyExn where
  | httpError (code : Nat) : PyExn
  | exn : PyExn

/-- The `try` body of `fetch_image_url` (lines 55-69) for a given
attempt: returns the extraction result or raises. -/
def tryBody (behavior : Nat → AttemptOutcome) (attempt : Nat) :
    Except PyExn (Option String) :=
  match behavior attempt with
  | AttemptOutcome.success r => Except.ok r
  | AttemptOutcome.extractRaise => Except.error PyExn.exn
  | AttemptOutcome.httpError c => Except.error (PyExn.httpError c)
  | AttemptOutcome.otherError => Except.error PyExn.exn

/-- `fetch_image_url(url, attempt)` (lines 53-78), with the transport and
extraction abstracted into `behavior`.  Returns what the Python caller
observes (a value or a propagated exception) together with the number of
transport attempts this call performs.  Lines 70-76: on `HTTPError` with
code 429 or 403 while `attempt < MAX_RETRIES`, sleep and recurse with
`attempt + 1`; every other exception yields `None`. -/
def fetch_image_url (behavior : Nat → AttemptOutcome) (attempt : Nat) :
    Except PyExn (Option String) × Nat :=
  match tryBody behavior attempt with
  | Except.ok r => (Except.ok r, 1)
  | Except.error (PyExn.httpError c) =>
    if h : (c = 429 ∨ c = 403) ∧ attempt < MAX_RETRIES then
      let rest := fetch_image_url behavior (attempt + 1)
      (rest.1, rest.2 + 1)
    else
      (Except.ok none, 1)
  | Except.error PyExn.exn => (Except.ok none, 1)
termination_by MAX_RETRIES - attempt
decreasing_by
  have := h.2
  omega

/-- Encoding of a fetch result as the Python value stored in the dict:
`None` or the string. -/
def jsonOfImg : Option String → Json
  | none => Json.null
  | some s => Json.str s

/-- The mutable state of `main`'s loop (lines 120-153), plus observation
fields: `fetched` records each top-level `fetch_image_url` call in
order, `cooldowns` counts the failure-streak sleeps, `flushSeq` records
the successive contents written to the output file, and `file` is the
current on-disk state. -/
structure LoopState where
  results : Store
  completed : Nat
  found : Nat
  consecutive_fails : Nat
  file : StoreFile
  flushSeq : List Store
  fetched : List String
  cooldowns : Nat
deriving DecidableEq, Repr

/-- Lines 120-123: `results = dict(existing)`, counters zeroed, `found`
starts at `len(existing)`. -/
def initState (existing : Store) (file0 : StoreFile) : LoopState :=
  { results := existing
    completed := 0
    found := existing.length
    consecutive_fails := 0
    file := file0
    flushSeq := []
    fetched := []
    cooldowns := 0 }

/-- Lines 129-142 of one loop iteration: fetch, store the result,
bump `completed`, then update `found`/`consecutive_fails`, sleeping a
cooldown and resetting the streak once it reaches 5. -/
def recordResult (fetchR : String → Option String) (s : LoopState)
    (url : String) : LoopState :=
  let img := fetchR url
  let s1 : LoopState :=
    { s with
      results := dictInsert s.results url (jsonOfImg img)
      completed := s.completed + 1
      fetched := s.fetched ++ [url] }
  match img with
  | some _ => { s1 with found := s1.found + 1, consecutive_fails := 0 }
  | none =>
    if 5 ≤ s1.consecutive_fails + 1 then
      { s1 with consecutive_fails := 0, cooldowns := s1.cooldowns + 1 }
    else
      { s1 with consecutive_fails := s1.consecutive_fails + 1 }

/-- Lines 148-150: `if completed % BATCH_SAVE_EVERY == 0: json.dump`. -/
def applyFlush (s : LoopState) : LoopState :=
  if s.completed % BATCH_SAVE_EVERY = 0 then
    { s with
      file := StoreFile.parsed s.results
      flushSeq := s.flushSeq ++ [s.results] }
  else s

/-- One full iteration of the `for url in to_scrape` loop. -/
def stepTarget (fetchR : String → Option String) (s : LoopState)
    (url : String) : LoopState :=
  applyFlush (recordResult fetchR s url)

/-- The whole `for url in to_scrape` loop, left to right. -/
def runLoop (fetchR : String → Option String) (s : LoopState)
    (targets : List String) : LoopState :=
  targets.foldl (stepTarget fetchR) s

/-- Lines 152-153: the unconditional flush after the loop. -/
def finalFlush (s : LoopState) : LoopState :=
  { s with
    file := StoreFile.parsed s.results
    flushSeq := s.flushSeq ++ [s.results] }

/-- `main` (lines 80-156; named `mainRun` since Lean reserves `main`): load catalog and prior store, compute and
shuffle the pending list, return early when nothing is pending, else run
the loop and write one final flush (lines 152-153).  The catalog is
given already parsed as the optional `canonical_url` of each item; a
corrupt prior store propagates as a fatal error. -/
def mainRun (fetchR : String → Option String) (items : List (Option String))
    (file0 : StoreFile) (shuffle : List String → List String) :
    Except Unit LoopState :=
  let urls := catalogUrls items
  match loadExisting file0 with
  | Except.error e => Except.error e
  | Except.ok existing =>
    let to_scrape := shuffle (computePending urls existing)
    if to_scrape.isEmpty then
      Except.ok (initState existing file0)
    else
      Except.ok (finalFlush (runLoop fetchR (initState existing file0) to_scrape))

/-- `json.dump` of an in-memory mapping whose values are an image URL or
`None`: the value encoding used by every flush. -/
def dumpStore (m : List (String × Option String)) : Store :=
  m.map (fun kv => (kv.1, jsonOfImg kv.2))

/-! ### Unfolding lemmas for the fetcher -/

/-- One-step unfolding of `fetch_image_url`. -/
theorem fetch_step (behavior : Nat → AttemptOutcome) (attempt : Nat) :
    fetch_image_url behavior attempt =
      match tryBody behavior attempt with
      | Except.ok r => (Except.ok r, 1)
      | Except.error (PyExn.httpError c) =>
        if (c = 429 ∨ c = 403) ∧ attempt < MAX_RETRIES then
          ((fetch_image_url behavior (attempt + 1)).1,
           (fetch_image_url behavior (attempt + 1)).2 + 1)
        else
          (Except.ok none, 1)
      | Except.error PyExn.exn => (Except.ok none, 1) := by
  rw [fetch_image_url]
  rfl

/-- A successful attempt returns the extraction result with one attempt. -/
theorem fetch_success (behavior : Nat → AttemptOutcome) (attempt : Nat)
    (r : Option String) (hb : behavior attempt = AttemptOutcome.success r) :
    fetch_image_url behavior attempt = (Except.ok r, 1) := by
  rw [fetch_step]
  simp [tryBody, hb]

/-- An extraction exception or a non-HTTP transport exception resolves
immediately to `None` with one attempt. -/
theorem fetch_exn (behavior : Nat → AttemptOutcome) (attempt : Nat)
    (hb : behavior attempt = AttemptOutcome.extractRaise ∨
          behavior attempt = AttemptOutcome.otherError) :
    fetch_image_url behavior attempt = (Except.ok none, 1) := by
  rw [fetch_step]
  rcases hb with hb | hb <;> simp [tryBody, hb]

/-- An `HTTPError` outside the retry condition resolves immediately to
`None` with one attempt. -/
theorem fetch_terminal_http (behavior : Nat → AttemptOutcome)
    (attempt c : Nat) (hb : behavior attempt = AttemptOutcome.httpError c)
    (hcond : ¬((c = 429 ∨ c = 403) ∧ attempt < MAX_RETRIES)) :
    fetch_image_url behavior attempt = (Except.ok none, 1) := by
  rw [fetch_step]
  simp only [tryBody, hb]
  rw [if_neg hcond]

/-- An `HTTPError` inside the retry condition recurses with
`attempt + 1`, adding one attempt. -/
theorem fetch_retriable_step (behavior : Nat → AttemptOutcome)
    (attempt c : Nat) (hb : behavior attempt = AttemptOutcome.httpError c)
    (hcond : (c = 429 ∨ c = 403) ∧ attempt < MAX_RETRIES) :
    fetch_image_url behavior attempt =
      ((fetch_image_url behavior (attempt + 1)).1,
       (fetch_image_url behavior (attempt + 1)).2 + 1) := by
  rw [fetch_step]
  simp only [tryBody, hb]
  rw [if_pos hcond]

/-- Every call performs at least one attempt. -/
theorem fetch_attempts_pos (behavior : Nat → AttemptOutcome)
    (attempt : Nat) : 0 < (fetch_image_url behavior attempt).2 := by
  cases hb : behavior attempt with
  | success r => rw [fetch_success behavior attempt r hb]; exact Nat.one_pos
  | extractRaise => rw [fetch_exn behavior attempt (Or.inl hb)]; exact Nat.one_pos
  | otherError => rw [fetch_exn behavior attempt (Or.inr hb)]; exact Nat.one_pos
  | httpError c =>
    by_cases hcond : (c = 429 ∨ c = 403) ∧ attempt < MAX_RETRIES
    · rw [fetch_retriable_step behavior attempt c hb hcond]
      exact Nat.succ_pos _
    · rw [fetch_terminal_http behavior attempt c hb hcond]
      exact Nat.one_pos

/-- C3: if the transport raises the retriable error class (HTTP 429 or
403) on every attempt, `fetch_image_url` performs exactly
`MAX_RETRIES + 1 = 3` attempts in total and returns null. -/
theorem retry_bound_exact (behavior : Nat → AttemptOutcome)
    (h : ∀ n, ∃ c, behavior n = AttemptOutcome.httpError c ∧
         (c = 429 ∨ c = 403)) :
    fetch_image_url behavior 0 = (Except.ok none, MAX_RETRIES + 1) := by
  obtain ⟨c0, hb0, hc0⟩ := h 0
  obtain ⟨c1, hb1, hc1⟩ := h 1
  obtain ⟨c2, hb2, hc2⟩ := h 2
  rw [fetch_retriable_step behavior 0 c0 hb0
      ⟨hc0, by simp [MAX_RETRIES]⟩]
  rw [fetch_retriable_step behavior 1 c1 hb1
      ⟨hc1, by simp [MAX_RETRIES]⟩]
  rw [fetch_terminal_http behavior 2 c2 hb2
      (by simp [MAX_RETRIES])]
  rfl

/-- Witness for C3 at the transport that always raises HTTP 429. -/
theorem retry_bound_exact_witness :
    fetch_image_url (fun _ => AttemptOutcome.httpError 429) 0 =
      (Except.ok none, MAX_RETRIES + 1) :=
  retry_bound_exact (fun _ => AttemptOutcome.httpError 429)
    (fun _ => ⟨429, rfl, Or.inl rfl⟩)

/-- C4: a retry happens (the call performs more than one attempt) iff
the attempt's error is `HTTPError` 429 or 403 and `attempt <
MAX_RETRIES`; every other transport or extraction error resolves
immediately to null in a single attempt. -/
theorem retry_classification (behavior : Nat → AttemptOutcome)
    (attempt : Nat) :
    (1 < (fetch_image_url behavior attempt).2 ↔
      (∃ c, behavior attempt = AttemptOutcome.httpError c ∧
        (c = 429 ∨ c = 403)) ∧ attempt < MAX_RETRIES) ∧
    ((behavior attempt = AttemptOutcome.extractRaise ∨
      behavior attempt = AttemptOutcome.otherError ∨
      ∃ c, behavior attempt = AttemptOutcome.httpError c ∧
        ¬((c = 429 ∨ c = 403) ∧ attempt < MAX_RETRIES)) →
      fetch_image_url behavior attempt = (Except.ok none, 1)) := by
  constructor
  · cases hb : behavior attempt with
    | success r =>
      rw [fetch_success behavior attempt r hb]
      simp [hb]
    | extractRaise =>
      rw [fetch_exn behavior attempt (Or.inl hb)]
      simp [hb]
    | otherError =>
      rw [fetch_exn behavior attempt (Or.inr hb)]
      simp [hb]
    | httpError c =>
      by_cases hcond : (c = 429 ∨ c = 403) ∧ attempt < MAX_RETRIES
      · rw [fetch_retriable_step behavior attempt c hb hcond]
        simp only [hb]
        constructor
        · intro _
          exact ⟨⟨c, rfl, hcond.1⟩, hcond.2⟩
        · intro _
          have := fetch_attempts_pos behavior (attempt + 1)
          omega
      · rw [fetch_terminal_http behavior attempt c hb hcond]
        simp only [hb]
        constructor
        · intro hlt
          omega
        · rintro ⟨⟨c', hc', hclass⟩, hlt⟩
          cases hc'
          exact absurd ⟨hclass, hlt⟩ hcond
  · rintro (hb | hb | ⟨c, hb, hcond⟩)
    · exact fetch_exn behavior attempt (Or.inl hb)
    · exact fetch_exn behavior attempt (Or.inr hb)
    · exact fetch_terminal_http behavior attempt c hb hcond

/-- C5: `fetch_image_url` never lets an exception escape to its caller:
for every transport/extraction behaviour and starting attempt, the call
returns a value (possibly null), never a raised exception. -/
theorem fetch_never_propagates (behavior : Nat → AttemptOutcome)
    (attempt : Nat) :
    ∃ r, (fetch_image_url behavior attempt).1 = Except.ok r := by
  have key : ∀ k attempt, MAX_RETRIES ≤ attempt + k →
      ∃ r, (fetch_image_url behavior attempt).1 = Except.ok r := by
    intro k
    induction k with
    | zero =>
      intro attempt hk
      cases hb : behavior attempt with
      | success r => exact ⟨r, by rw [fetch_success behavior attempt r hb]⟩
      | extractRaise => exact ⟨none, by rw [fetch_exn behavior attempt (Or.inl hb)]⟩
      | otherError => exact ⟨none, by rw [fetch_exn behavior attempt (Or.inr hb)]⟩
      | httpError c =>
        refine ⟨none, ?_⟩
        rw [fetch_terminal_http behavior attempt c hb (fun hcond => by omega)]
    | succ k ih =>
      intro attempt hk
      cases hb : behavior attempt with
      | success r => exact ⟨r, by rw [fetch_success behavior attempt r hb]⟩
      | extractRaise => exact ⟨none, by rw [fetch_exn behavior attempt (Or.inl hb)]⟩
      | otherError => exact ⟨none, by rw [fetch_exn behavior attempt (Or.inr hb)]⟩
      | httpError c =>
        by_cases hcond : (c = 429 ∨ c = 403) ∧ attempt < MAX_RETRIES
        · obtain ⟨r, hr⟩ := ih (attempt + 1) (by omega)
          exact ⟨r, by rw [fetch_retriable_step behavior attempt c hb hcond]; exact hr⟩
        · exact ⟨none, by rw [fetch_terminal_http behavior attempt c hb hcond]⟩
  exact key MAX_RETRIES attempt (by omega)

/-! ### Dict and store lemmas -/

/-- A key absent from the key list looks up to nothing. -/
theorem dictGet_none_of_not_mem_keys (m : Store) (u : String)
    (h : u ∉ m.map Prod.fst) : dictGet m u = none := by
  induction m with
  | nil => rfl
  | cons kv rest ih =>
    simp only [List.map_cons, List.mem_cons] at h
    push_neg at h
    simp only [dictGet]
    rw [if_neg (fun he => h.1 he.symm)]
    exact ih h.2

/-- The non-null filter keeps the keys it keeps. -/
theorem keys_resolvedOf_subset (m : Store) :
    (resolvedOf m).map Prod.fst ⊆ m.map Prod.fst := by
  intro u hu
  simp only [resolvedOf, List.mem_map] at hu
  obtain ⟨kv, hkv, rfl⟩ := hu
  exact List.mem_map_of_mem Prod.fst (List.mem_of_mem_filter hkv)

/-- A non-null first entry for a key survives the non-null filter as the
first entry for that key. -/
theorem dictGet_resolvedOf_of_ne_null (raw : Store) (u : String) (v : Json)
    (hv : dictGet raw u = some v) (hnn : v ≠ Json.null) :
    dictGet (resolvedOf raw) u = some v := by
  induction raw with
  | nil => simp [dictGet] at hv
  | cons kv rest ih =>
    by_cases hk : kv.1 = u
    · rw [dictGet, if_pos hk] at hv
      obtain rfl : kv.2 = v := Option.some_injective _ hv
      have : kv ∈ resolvedOf (kv :: rest) := by
        simp [resolvedOf, List.mem_filter, hnn]
      rw [resolvedOf, List.filter_cons, if_pos (by simpa using hnn)]
      rw [dictGet, if_pos hk]
    · rw [dictGet, if_neg hk] at hv
      rw [resolvedOf, List.filter_cons]
      by_cases hkeep : kv.2 ≠ Json.null
      · rw [if_pos (by simpa using hkeep)]
        rw [dictGet, if_neg hk]
        exact ih hv
      · rw [if_neg (by simpa using hkeep)]
        exact ih hv

/-- With unique keys, a null entry for a key vanishes under the
non-null filter: the key is no longer present at all. -/
theorem dictGet_resolvedOf_of_null (raw : Store) (u : String)
    (hnd : (raw.map Prod.fst).Nodup) (hv : dictGet raw u = some Json.null) :
    dictGet (resolvedOf raw) u = none := by
  induction raw with
  | nil => simp [dictGet] at hv
  | cons kv rest ih =>
    simp only [List.map_cons, List.nodup_cons] at hnd
    by_cases hk : kv.1 = u
    · rw [dictGet, if_pos hk] at hv
      have hnull : kv.2 = Json.null := Option.some_injective _ hv
      rw [resolvedOf, List.filter_cons, if_neg (by simp [hnull])]
      apply dictGet_none_of_not_mem_keys
      intro hmem
      exact hnd.1 (hk ▸ keys_resolvedOf_subset rest hmem)
    · rw [dictGet, if_neg hk] at hv
      rw [resolvedOf, List.filter_cons]
      by_cases hkeep : kv.2 ≠ Json.null
      · rw [if_pos (by simpa using hkeep)]
        rw [dictGet, if_neg hk]
        exact ih hnd.2 hv
      · rw [if_neg (by simpa using hkeep)]
        exact ih hnd.2 hv

/-- Membership in the pending list unfolds to catalog membership plus an
unresolved lookup. -/
theorem mem_computePending (urls : List String) (existing : Store)
    (u : String) :
    u ∈ computePending urls existing ↔
      u ∈ urls ∧ (dictGet existing u).isNone := by
  simp [computePending, List.mem_filter]

/-- C1: over the prior store (a dict, so keys are unique), a target whose
stored value is null re-enters the pending list exactly when the catalog
still lists it, while a target whose stored value is non-null never
enters the pending list. -/
theorem null_is_retriable (raw : Store) (urls : List String) (u : String)
    (hnd : (raw.map Prod.fst).Nodup) :
    (dictGet raw u = some Json.null →
      (u ∈ computePending urls (resolvedOf raw) ↔ u ∈ urls)) ∧
    (∀ v, dictGet raw u = some v → v ≠ Json.null →
      u ∉ computePending urls (resolvedOf raw)) := by
  constructor
  · intro hv
    rw [mem_computePending]
    have hres := dictGet_resolvedOf_of_null raw u hnd hv
    simp [hres]
  · intro v hv hnn hmem
    rw [mem_computePending] at hmem
    have hres := dictGet_resolvedOf_of_ne_null raw u v hv hnn
    rw [hres] at hmem
    simp at hmem

/-- Witness for C1 on the store `{"a": "x", "b": null}` with catalog
`{"a", "b", "c"}`, at target `"b"` (null, retried) and target `"a"`
(resolved, excluded). -/
theorem null_is_retriable_witness :
    (([("a", Json.str "x"), ("b", Json.null)].map
        (Prod.fst (α := String) (β := Json))).Nodup) ∧
    ((dictGet [("a", Json.str "x"), ("b", Json.null)] "b" =
        some Json.null →
      ("b" ∈ computePending ["a", "b", "c"]
          (resolvedOf [("a", Json.str "x"), ("b", Json.null)]) ↔
        "b" ∈ ["a", "b", "c"])) ∧
     (∀ v, dictGet [("a", Json.str "x"), ("b", Json.null)] "b" = some v →
        v ≠ Json.null →
        "b" ∉ computePending ["a", "b", "c"]
          (resolvedOf [("a", Json.str "x"), ("b", Json.null)]))) :=
  ⟨by decide, null_is_retriable _ ["a", "b", "c"] "b" (by decide)⟩

/-- C7: flushing a mapping over the string-or-null value domain and
reloading it yields, as the resolved subset, exactly the encoding of the
mapping's non-null entries. -/
theorem flush_load_roundtrip (m : List (String × Option String)) :
    loadExisting (StoreFile.parsed (dumpStore m)) =
      Except.ok (dumpStore (m.filter (fun kv => kv.2.isSome))) := by
  simp only [loadExisting, Except.ok.injEq]
  induction m with
  | nil => rfl
  | cons kv rest ih =>
    obtain ⟨k, v⟩ := kv
    cases v <;>
      simp_all [resolvedOf, dumpStore, jsonOfImg, List.filter_cons]

/-- C8: loading yields the empty mapping when the store file is missing,
and a malformed store file is a fatal error that aborts `main` before
any fetching, whatever the transport would have done. -/
theorem load_fatal_semantics :
    loadExisting StoreFile.missing = Except.ok [] ∧
    loadExisting StoreFile.malformed = Except.error () ∧
    (∀ (fetchR : String → Option String) (items : List (Option String))
        (shuffle : List String → List String),
      mainRun fetchR items StoreFile.malformed shuffle =
        Except.error ()) :=
  ⟨rfl, rfl, fun _ _ _ => rfl⟩

/-! ### Loop step lemmas -/

/-- Inserting then looking up the same key yields the inserted value. -/
theorem dictGet_dictInsert_self (m : Store) (k : String) (v : Json) :
    dictGet (dictInsert m k v) k = some v := by
  unfold dictInsert
  by_cases hany : m.any (fun kv => kv.1 = k)
  · rw [if_pos (by simpa using hany)]
    induction m with
    | nil => simp at hany
    | cons kv rest ih =>
      simp only [List.any_cons, Bool.or_eq_true, decide_eq_true_eq] at hany
      by_cases hk : kv.1 = k
      · simp [dictGet, hk]
      · simp only [List.map_cons, if_neg hk, dictGet]
        exact ih (by simpa [hk] using hany)
  · rw [if_neg (by simpa using hany)]
    induction m with
    | nil => simp [dictGet]
    | cons kv rest ih =>
      simp only [List.any_cons, Bool.or_eq_true, decide_eq_true_eq] at hany
      push_neg at hany
      simp only [List.cons_append, dictGet]
      rw [if_neg hany.1]
      exact ih (by simpa using hany.2)

/-- Inserting one key leaves the lookup of any other key unchanged. -/
theorem dictGet_dictInsert_ne (m : Store) (k k' : String) (v : Json)
    (hne : k' ≠ k) : dictGet (dictInsert m k v) k' = dictGet m k' := by
  unfold dictInsert
  by_cases hany : m.any (fun kv => kv.1 = k)
  · rw [if_pos (by simpa using hany)]
    clear hany
    induction m with
    | nil => rfl
    | cons kv rest ih =>
      by_cases hk : kv.1 = k
      · simp only [List.map_cons, if_pos hk, dictGet]
        rw [if_neg (fun h => hne h.symm),
          if_neg (show ¬kv.1 = k' from fun h => hne (by rw [← h, hk]))]
        exact ih
      · simp only [List.map_cons, if_neg hk, dictGet]
        by_cases hk' : kv.1 = k'
        · rw [if_pos hk', if_pos hk']
        · rw [if_neg hk', if_neg hk']
          exact ih
  · rw [if_neg (by simpa using hany)]
    clear hany
    induction m with
    | nil =>
      simp only [List.nil_append, dictGet]
      rw [if_neg (fun h => hne h.symm)]
    | cons kv rest ih =>
      simp only [List.cons_append, dictGet]
      by_cases hk' : kv.1 = k'
      · rw [if_pos hk', if_pos hk']
      · rw [if_neg hk', if_neg hk']
        exact ih

/-- `recordResult` writes the fetch result, bumps `completed`, and logs
the fetch, in every counter branch. -/
theorem recordResult_core (fetchR : String → Option String) (s : LoopState)
    (url : String) :
    (recordResult fetchR s url).results =
        dictInsert s.results url (jsonOfImg (fetchR url)) ∧
    (recordResult fetchR s url).completed = s.completed + 1 ∧
    (recordResult fetchR s url).fetched = s.fetched ++ [url] ∧
    (recordResult fetchR s url).file = s.file ∧
    (recordResult fetchR s url).flushSeq = s.flushSeq := by
  unfold recordResult
  cases fetchR url with
  | some r => exact ⟨rfl, rfl, rfl, rfl, rfl⟩
  | none =>
    by_cases h : 5 ≤ s.consecutive_fails + 1 <;> simp [h]

/-- `applyFlush` never touches the in-memory state, only the file. -/
theorem applyFlush_core (s : LoopState) :
    (applyFlush s).results = s.results ∧
    (applyFlush s).completed = s.completed ∧
    (applyFlush s).fetched = s.fetched ∧
    (applyFlush s).consecutive_fails = s.consecutive_fails ∧
    (applyFlush s).cooldowns = s.cooldowns ∧
    (applyFlush s).found = s.found := by
  unfold applyFlush
  by_cases h : s.completed % BATCH_SAVE_EVERY = 0 <;> simp [h]

/-- The combined per-iteration effect on the core fields. -/
theorem stepTarget_core (fetchR : String → Option String) (s : LoopState)
    (url : String) :
    (stepTarget fetchR s url).results =
        dictInsert s.results url (jsonOfImg (fetchR url)) ∧
    (stepTarget fetchR s url).completed = s.completed + 1 ∧
    (stepTarget fetchR s url).fetched = s.fetched ++ [url] := by
  unfold stepTarget
  obtain ⟨hr, hc, hf, _, _⟩ := recordResult_core fetchR s url
  obtain ⟨hr', hc', hf', _, _, _⟩ := applyFlush_core (recordResult fetchR s url)
  exact ⟨hr' ▸ hr, hc' ▸ hc, hf' ▸ hf⟩

/-- `completed` counts the processed targets. -/
theorem runLoop_completed (fetchR : String → Option String)
    (targets : List String) (s : LoopState) :
    (runLoop fetchR s targets).completed = s.completed + targets.length := by
  induction targets generalizing s with
  | nil => simp [runLoop]
  | cons u rest ih =>
    show (runLoop fetchR (stepTarget fetchR s u) rest).completed = _
    rw [ih, (stepTarget_core fetchR s u).2.1]
    simp [List.length_cons]
    omega

/-- `fetched` records exactly the processed targets, in order. -/
theorem runLoop_fetched (fetchR : String → Option String)
    (targets : List String) (s : LoopState) :
    (runLoop fetchR s targets).fetched = s.fetched ++ targets := by
  induction targets generalizing s with
  | nil => simp [runLoop]
  | cons u rest ih =>
    show (runLoop fetchR (stepTarget fetchR s u) rest).fetched = _
    rw [ih, (stepTarget_core fetchR s u).2.2]
    simp

/-- Keys outside the processed targets keep their lookup through the loop. -/
theorem runLoop_results_preserve (fetchR : String → Option String)
    (targets : List String) (s : LoopState) (u : String)
    (hu : u ∉ targets) :
    dictGet (runLoop fetchR s targets).results u = dictGet s.results u := by
  induction targets generalizing s with
  | nil => rfl
  | cons x rest ih =>
    simp only [List.mem_cons] at hu
    push_neg at hu
    show dictGet (runLoop fetchR (stepTarget fetchR s x) rest).results u = _
    rw [ih _ hu.2, (stepTarget_core fetchR s x).1,
      dictGet_dictInsert_ne _ _ _ _ hu.1]

/-- Every processed target ends the loop mapped to its fetch result. -/
theorem runLoop_results_get (fetchR : String → Option String)
    (targets : List String) (s : LoopState) (u : String)
    (hu : u ∈ targets) :
    dictGet (runLoop fetchR s targets).results u =
      some (jsonOfImg (fetchR u)) := by
  induction targets generalizing s with
  | nil => simp at hu
  | cons x rest ih =>
    show dictGet (runLoop fetchR (stepTarget fetchR s x) rest).results u = _
    by_cases hmem : u ∈ rest
    · exact ih _ hmem
    · have hux : u = x := by
        rcases List.mem_cons.mp hu with h | h
        · exact h
        · exact absurd h hmem
      rw [runLoop_results_preserve fetchR rest _ u hmem,
        (stepTarget_core fetchR s x).1, hux, dictGet_dictInsert_self]

/-! ### Failure-streak counters -/

/-- Counter effect of an iteration whose fetch found nothing. -/
theorem stepTarget_null_counters (fetchR : String → Option String)
    (s : LoopState) (url : String) (h : fetchR url = none) :
    (stepTarget fetchR s url).consecutive_fails =
      (if 5 ≤ s.consecutive_fails + 1 then 0
       else s.consecutive_fails + 1) ∧
    (stepTarget fetchR s url).cooldowns =
      (if 5 ≤ s.consecutive_fails + 1 then s.cooldowns + 1
       else s.cooldowns) := by
  obtain ⟨_, _, _, hcf, hcd, _⟩ :=
    applyFlush_core (recordResult fetchR s url)
  unfold stepTarget
  rw [hcf, hcd]
  unfold recordResult
  rw [h]
  by_cases hc : 5 ≤ s.consecutive_fails + 1 <;> simp [hc]

/-- Counter effect of an iteration whose fetch found an image: the
streak resets and no cooldown fires. -/
theorem stepTarget_success_counters (fetchR : String → Option String)
    (s : LoopState) (url : String) (r : String) (h : fetchR url = some r) :
    (stepTarget fetchR s url).consecutive_fails = 0 ∧
    (stepTarget fetchR s url).cooldowns = s.cooldowns := by
  obtain ⟨_, _, _, hcf, hcd, _⟩ :=
    applyFlush_core (recordResult fetchR s url)
  unfold stepTarget
  rw [hcf, hcd]
  unfold recordResult
  rw [h]
  exact ⟨rfl, rfl⟩

/-- Running the loop over all-null fetches from any sub-threshold streak:
one cooldown per five accumulated nulls, and the streak keeps the
remainder. -/
theorem runLoop_null_streak (urls : List String) (s : LoopState)
    (h : s.consecutive_fails < 5) :
    (runLoop (fun _ => none) s urls).cooldowns =
      s.cooldowns + (s.consecutive_fails + urls.length) / 5 ∧
    (runLoop (fun _ => none) s urls).consecutive_fails =
      (s.consecutive_fails + urls.length) % 5 := by
  induction urls generalizing s with
  | nil =>
    simp only [runLoop, List.foldl_nil, List.length_nil, Nat.add_zero]
    constructor <;> omega
  | cons u rest ih =>
    simp only [List.length_cons]
    have hstep := stepTarget_null_counters (fun _ => none) s u rfl
    have hrun :
        runLoop (fun _ => none) s (u :: rest) =
          runLoop (fun _ => none) (stepTarget (fun _ => none) s u) rest :=
      rfl
    rw [hrun]
    by_cases hc : 5 ≤ s.consecutive_fails + 1
    · simp only [if_pos hc] at hstep
      obtain ⟨hs1, hs2⟩ := hstep
      obtain ⟨ih1, ih2⟩ :=
        ih (stepTarget (fun _ => none) s u) (by omega)
      rw [ih1, ih2, hs1, hs2]
      constructor <;> omega
    · simp only [if_neg hc] at hstep
      obtain ⟨hs1, hs2⟩ := hstep
      obtain ⟨ih1, ih2⟩ :=
        ih (stepTarget (fun _ => none) s u) (by omega)
      rw [ih1, ih2, hs1, hs2]
      constructor <;> omega

/-- C6: a non-null result resets the streak to 0 and fires no cooldown;
from a zero streak, a run of null results fires exactly one cooldown per
five consecutive nulls (so 5 nulls fire exactly one, and a 6th after the
reset fires none until 5 more accumulate), the streak holding the
remainder. -/
theorem failure_streak_cooldown (s : LoopState) (urls : List String)
    (h0 : s.consecutive_fails = 0) :
    (∀ (fetchR : String → Option String) (t : LoopState) (url : String)
        (r : String), fetchR url = some r →
        (stepTarget fetchR t url).consecutive_fails = 0 ∧
        (stepTarget fetchR t url).cooldowns = t.cooldowns) ∧
    (runLoop (fun _ => none) s urls).cooldowns =
      s.cooldowns + urls.length / 5 ∧
    (runLoop (fun _ => none) s urls).consecutive_fails =
      urls.length % 5 := by
  obtain ⟨h1, h2⟩ := runLoop_null_streak urls s (by omega)
  rw [h0] at h1 h2
  exact ⟨fun fetchR t url r h =>
    stepTarget_success_counters fetchR t url r h,
    by simpa using h1, by simpa using h2⟩

/-- Witness for C6: from a fresh state, six straight null results fire
exactly one cooldown and leave a streak of one. -/
theorem failure_streak_cooldown_witness :
    ((initState [] StoreFile.missing).consecutive_fails = 0) ∧
    ((∀ (fetchR : String → Option String) (t : LoopState) (url : String)
        (r : String), fetchR url = some r →
        (stepTarget fetchR t url).consecutive_fails = 0 ∧
        (stepTarget fetchR t url).cooldowns = t.cooldowns) ∧
     (runLoop (fun _ => none) (initState [] StoreFile.missing)
        ["a", "b", "c", "d", "e", "f"]).cooldowns =
       (initState [] StoreFile.missing).cooldowns +
         ["a", "b", "c", "d", "e", "f"].length / 5 ∧
     (runLoop (fun _ => none) (initState [] StoreFile.missing)
        ["a", "b", "c", "d", "e", "f"]).consecutive_fails =
       ["a", "b", "c", "d", "e", "f"].length % 5) :=
  ⟨rfl, failure_streak_cooldown (initState [] StoreFile.missing)
    ["a", "b", "c", "d", "e", "f"] rfl⟩

/-! ### Orchestrator-level lemmas -/

/-- When the prior store loads, `mainRun` either returns immediately on
an empty pending list or runs the loop and flushes once more. -/
theorem mainRun_eq_of_load (fetchR : String → Option String)
    (items : List (Option String)) (file0 : StoreFile) (ex : Store)
    (shuffle : List String → List String)
    (hload : loadExisting file0 = Except.ok ex) :
    mainRun fetchR items file0 shuffle =
      (if (shuffle (computePending (catalogUrls items) ex)).isEmpty then
        Except.ok (initState ex file0)
      else
        Except.ok (finalFlush (runLoop fetchR (initState ex file0)
          (shuffle (computePending (catalogUrls items) ex))))) := by
  cases file0 with
  | missing =>
    obtain rfl : ([] : Store) = ex := by
      simpa [loadExisting] using hload
    rfl
  | malformed => simp [loadExisting] at hload
  | parsed raw =>
    obtain rfl : resolvedOf raw = ex := by
      simpa [loadExisting] using hload
    rfl

/-- The batch flush fires on the `BATCH_SAVE_EVERY`-th processed target:
after exactly 20 loop iterations the file holds the loop's full current
mapping. -/
theorem runLoop_flush_at_batch (fetchR : String → Option String)
    (existing : Store) (file0 : StoreFile) (l : List String)
    (h20 : BATCH_SAVE_EVERY ≤ l.length) :
    (runLoop fetchR (initState existing file0)
        (l.take BATCH_SAVE_EVERY)).file =
      StoreFile.parsed (runLoop fetchR (initState existing file0)
        (l.take BATCH_SAVE_EVERY)).results := by
  have h19 : 19 < l.length := by
    have : BATCH_SAVE_EVERY = 20 := rfl
    omega
  have hu : l[19]? = some l[19] := List.getElem?_eq_getElem h19
  have htake : l.take BATCH_SAVE_EVERY = l.take 19 ++ [l[19]] := by
    have h20eq : BATCH_SAVE_EVERY = 19 + 1 := rfl
    rw [h20eq, List.take_succ, hu]
    rfl
  rw [htake]
  have hsplit :
      runLoop fetchR (initState existing file0) (l.take 19 ++ [l[19]]) =
        stepTarget fetchR
          (runLoop fetchR (initState existing file0) (l.take 19)) l[19] := by
    unfold runLoop
    rw [List.foldl_append]
    rfl
  rw [hsplit]
  have hc19 :
      (runLoop fetchR (initState existing file0) (l.take 19)).completed =
        19 := by
    rw [runLoop_completed]
    simp only [initState, List.length_take]
    omega
  obtain ⟨_, hcc, _, _, _⟩ := recordResult_core fetchR
    (runLoop fetchR (initState existing file0) (l.take 19)) l[19]
  show (applyFlush _).file = StoreFile.parsed (applyFlush _).results
  unfold applyFlush
  rw [if_pos (by rw [hcc, hc19]; decide)]

/-- C9: once the loop has processed exactly `BATCH_SAVE_EVERY = 20`
targets a flush has happened, so the persisted store holds a result
entry for each of those targets; and whenever the pending list is
non-empty, a final flush of the full mapping follows the loop. -/
theorem flush_durability (fetchR : String → Option String)
    (existing : Store) (file0 : StoreFile) (to_scrape : List String)
    (h20 : BATCH_SAVE_EVERY ≤ to_scrape.length) :
    ((runLoop fetchR (initState existing file0)
        (to_scrape.take BATCH_SAVE_EVERY)).file =
      StoreFile.parsed (runLoop fetchR (initState existing file0)
        (to_scrape.take BATCH_SAVE_EVERY)).results ∧
     ∀ u ∈ to_scrape.take BATCH_SAVE_EVERY,
       (dictGet (runLoop fetchR (initState existing file0)
          (to_scrape.take BATCH_SAVE_EVERY)).results u).isSome) ∧
    (∀ (items : List (Option String)) (raw : Store)
        (shuffle : List String → List String),
      shuffle (computePending (catalogUrls items) (resolvedOf raw)) ≠ [] →
      ∃ s, mainRun fetchR items (StoreFile.parsed raw) shuffle =
          Except.ok s ∧
        s.file = StoreFile.parsed s.results) := by
  refine ⟨⟨runLoop_flush_at_batch fetchR existing file0 to_scrape h20, ?_⟩, ?_⟩
  · intro u hu
    rw [runLoop_results_get fetchR _ _ u hu]
    rfl
  · intro items raw shuffle hne
    rw [mainRun_eq_of_load fetchR items (StoreFile.parsed raw)
      (resolvedOf raw) shuffle rfl]
    rw [if_neg (by simpa [List.isEmpty_iff] using hne)]
    exact ⟨_, rfl, rfl⟩

/-- Witness for C9 on twenty copies of one target with an all-null
fetcher and an empty prior store. -/
theorem flush_durability_witness :
    BATCH_SAVE_EVERY ≤ (List.replicate 20 "u").length ∧
    ((runLoop (fun _ => none) (initState [] StoreFile.missing)
        ((List.replicate 20 "u").take BATCH_SAVE_EVERY)).file =
      StoreFile.parsed (runLoop (fun _ => none)
        (initState [] StoreFile.missing)
        ((List.replicate 20 "u").take BATCH_SAVE_EVERY)).results ∧
     ∀ u ∈ (List.replicate 20 "u").take BATCH_SAVE_EVERY,
       (dictGet (runLoop (fun _ => none) (initState [] StoreFile.missing)
          ((List.replicate 20 "u").take BATCH_SAVE_EVERY)).results
          u).isSome) ∧
    (∀ (items : List (Option String)) (raw : Store)
        (shuffle : List String → List String),
      shuffle (computePending (catalogUrls items) (resolvedOf raw)) ≠ [] →
      ∃ s, mainRun (fun _ => none) items (StoreFile.parsed raw) shuffle =
          Except.ok s ∧
        s.file = StoreFile.parsed s.results) :=
  ⟨by decide,
   flush_durability (fun _ => none) [] StoreFile.missing
     (List.replicate 20 "u") (by decide)⟩

/-! ### Frame preservation of prior entries -/

/-- A successful lookup comes from an entry of the list. -/
theorem dictGet_mem (m : Store) (u : String) (w : Json)
    (h : dictGet m u = some w) : (u, w) ∈ m := by
  induction m with
  | nil => simp [dictGet] at h
  | cons kv rest ih =>
    by_cases hk : kv.1 = u
    · rw [dictGet, if_pos hk] at h
      obtain ⟨k1, v1⟩ := kv
      obtain rfl : k1 = u := hk
      obtain rfl : v1 = w := Option.some_injective _ h
      exact List.mem_cons_self _ _
    · rw [dictGet, if_neg hk] at h
      exact List.mem_cons_of_mem kv (ih h)

/-- Whatever the merged prior mapping holds is non-null. -/
theorem loadExisting_nonnull (f : StoreFile) (ex : Store) (u : String)
    (w : Json) (hload : loadExisting f = Except.ok ex)
    (h : dictGet ex u = some w) : w ≠ Json.null := by
  cases f with
  | missing =>
    obtain rfl : ([] : Store) = ex := by simpa [loadExisting] using hload
    simp [dictGet] at h
  | malformed => simp [loadExisting] at hload
  | parsed raw =>
    obtain rfl : resolvedOf raw = ex := by simpa [loadExisting] using hload
    have hmem := dictGet_mem _ _ _ h
    have := List.mem_filter.mp hmem
    simpa using this.2

/-- Each iteration either leaves the flush log alone or appends the
iteration's own full mapping. -/
theorem stepTarget_flushSeq (fetchR : String → Option String)
    (s : LoopState) (url : String) :
    (stepTarget fetchR s url).flushSeq = s.flushSeq ∨
    (stepTarget fetchR s url).flushSeq =
      s.flushSeq ++ [(stepTarget fetchR s url).results] := by
  obtain ⟨_, _, _, _, hflush⟩ := recordResult_core fetchR s url
  unfold stepTarget applyFlush
  by_cases hc :
      (recordResult fetchR s url).completed % BATCH_SAVE_EVERY = 0
  · rw [if_pos hc]
    right
    rw [hflush]
  · rw [if_neg hc]
    left
    exact hflush

/-- Loop invariant: a key outside the processed targets keeps its value
in the mapping and in every flushed snapshot. -/
theorem runLoop_frame (fetchR : String → Option String)
    (targets : List String) (s : LoopState) (t : String) (v : Json)
    (ht : t ∉ targets) (hres : dictGet s.results t = some v)
    (hseq : ∀ m ∈ s.flushSeq, dictGet m t = some v) :
    dictGet (runLoop fetchR s targets).results t = some v ∧
    ∀ m ∈ (runLoop fetchR s targets).flushSeq, dictGet m t = some v := by
  induction targets generalizing s with
  | nil => exact ⟨hres, hseq⟩
  | cons x rest ih =>
    simp only [List.mem_cons] at ht
    push_neg at ht
    have hres' :
        dictGet (stepTarget fetchR s x).results t = some v := by
      rw [(stepTarget_core fetchR s x).1,
        dictGet_dictInsert_ne _ _ _ _ ht.1]
      exact hres
    have hseq' :
        ∀ m ∈ (stepTarget fetchR s x).flushSeq, dictGet m t = some v := by
      rcases stepTarget_flushSeq fetchR s x with hx | hx
      · rw [hx]; exact hseq
      · rw [hx]
        intro m hm
        rcases List.mem_append.mp hm with hm | hm
        · exact hseq m hm
        · obtain rfl : m = (stepTarget fetchR s x).results := by simpa using hm
          exact hres'
    exact ih _ ht.2 hres' hseq'

/-- C10: a target the prior store resolves (non-null value) is never
fetched by the run, keeps its original value in the final mapping, and
is written back unchanged by every flush, including the final one — even
if the catalog no longer lists it. -/
theorem prior_resolved_preserved (fetchR : String → Option String)
    (items : List (Option String)) (raw : Store)
    (shuffle : List String → List String) (t : String) (v : Json)
    (hperm : ∀ l, List.Perm (shuffle l) l)
    (hv : dictGet raw t = some v) (hnn : v ≠ Json.null) :
    ∃ s, mainRun fetchR items (StoreFile.parsed raw) shuffle =
        Except.ok s ∧
      t ∉ s.fetched ∧
      dictGet s.results t = some v ∧
      ∀ m ∈ s.flushSeq, dictGet m t = some v := by
  have hres : dictGet (resolvedOf raw) t = some v :=
    dictGet_resolvedOf_of_ne_null raw t v hv hnn
  have hnp : t ∉ shuffle (computePending (catalogUrls items)
      (resolvedOf raw)) := by
    intro hmem
    have := (hperm _).mem_iff.mp hmem
    rw [mem_computePending] at this
    rw [hres] at this
    simp at this
  rw [mainRun_eq_of_load fetchR items (StoreFile.parsed raw)
    (resolvedOf raw) shuffle rfl]
  by_cases hempty : (shuffle (computePending (catalogUrls items)
      (resolvedOf raw))).isEmpty
  · rw [if_pos hempty]
    refine ⟨_, rfl, ?_, hres, ?_⟩
    · simp [initState]
    · intro m hm
      simp [initState] at hm
  · rw [if_neg hempty]
    obtain ⟨hr, hs⟩ := runLoop_frame fetchR
      (shuffle (computePending (catalogUrls items) (resolvedOf raw)))
      (initState (resolvedOf raw) (StoreFile.parsed raw)) t v hnp hres
      (by intro m hm; simp [initState] at hm)
    refine ⟨_, rfl, ?_, hr, ?_⟩
    · show t ∉ (finalFlush _).fetched
      have hfetched := runLoop_fetched fetchR
        (shuffle (computePending (catalogUrls items) (resolvedOf raw)))
        (initState (resolvedOf raw) (StoreFile.parsed raw))
      show t ∉ (runLoop fetchR _ _).fetched
      rw [hfetched]
      simp only [initState, List.nil_append]
      exact hnp
    · show ∀ m ∈ (finalFlush _).flushSeq, dictGet m t = some v
      intro m hm
      rcases List.mem_append.mp hm with hm | hm
      · exact hs m hm
      · obtain rfl : m = (runLoop fetchR _ _).results := by simpa using hm
        exact hr

/-- Witness for C10: prior store `{"t": "v"}`, catalog `{"a"}`; the run
re-fetches nothing for `"t"` and every flush keeps `"t" -> "v"`. -/
theorem prior_resolved_preserved_witness :
    (∀ l : List String, List.Perm (id l) l) ∧
    dictGet [("t", Json.str "v")] "t" = some (Json.str "v") ∧
    Json.str "v" ≠ Json.null ∧
    ∃ s, mainRun (fun _ => none) [some "a"]
        (StoreFile.parsed [("t", Json.str "v")]) id = Except.ok s ∧
      "t" ∉ s.fetched ∧
      dictGet s.results "t" = some (Json.str "v") ∧
      ∀ m ∈ s.flushSeq, dictGet m "t" = some (Json.str "v") :=
  ⟨fun l => List.Perm.refl l, by decide, by decide,
   prior_resolved_preserved (fun _ => none) [some "a"]
     [("t", Json.str "v")] id "t" (Json.str "v")
     (fun l => List.Perm.refl l) (by decide) (by decide)⟩

/-! ### Resume behaviour -/

/-- Counterexample to C2 as stated: over catalog `{"a"}` with a fetcher
that finds nothing, the first run ends with store `{"a": null}`, and the
second run with that store as prior state fetches `"a"` again — one
fetch, not zero, and a non-empty pending set. -/
theorem resume_idempotence_cex :
    (mainRun (fun _ => none) [some "a"] StoreFile.missing id).map
        (fun s => s.file) =
      Except.ok (StoreFile.parsed [("a", Json.null)]) ∧
    (mainRun (fun _ => none) [some "a"]
        (StoreFile.parsed [("a", Json.null)]) id).map
        (fun s => s.fetched) = Except.ok ["a"] :=
  ⟨rfl, rfl⟩

/-- C2 amended: if every fetch of the first run resolves (non-null),
then rerunning with the same catalog and the store the first run leaves
behind loads a merged mapping whose pending set is empty, and the second
run performs zero fetches. -/
theorem resume_after_full_success (fetchR : String → Option String)
    (items : List (Option String)) (file0 : StoreFile) (ex : Store)
    (shuffle1 shuffle2 : List String → List String)
    (hload : loadExisting file0 = Except.ok ex)
    (hperm1 : ∀ l, List.Perm (shuffle1 l) l)
    (hperm2 : ∀ l, List.Perm (shuffle2 l) l)
    (hall : ∀ u, (fetchR u).isSome) :
    ∃ s1 s2 ex2,
      mainRun fetchR items file0 shuffle1 = Except.ok s1 ∧
      mainRun fetchR items s1.file shuffle2 = Except.ok s2 ∧
      loadExisting s1.file = Except.ok ex2 ∧
      computePending (catalogUrls items) ex2 = [] ∧
      s2.fetched = [] := by
  have hp1 := mainRun_eq_of_load fetchR items file0 ex shuffle1 hload
  by_cases h1 : (shuffle1 (computePending (catalogUrls items) ex)).isEmpty
  · have hpnil : computePending (catalogUrls items) ex = [] := by
      have hs1 : shuffle1 (computePending (catalogUrls items) ex) = [] :=
        List.isEmpty_iff.mp h1
      have hp := hperm1 (computePending (catalogUrls items) ex)
      rw [hs1] at hp
      exact hp.symm.eq_nil
    refine ⟨initState ex file0, initState ex file0, ex, ?_, ?_, ?_,
      hpnil, rfl⟩
    · rw [hp1, if_pos h1]
    · have hfile : (initState ex file0).file = file0 := rfl
      rw [hfile, mainRun_eq_of_load fetchR items file0 ex shuffle2 hload,
        hpnil, (hperm2 []).eq_nil]
      rfl
    · have hfile : (initState ex file0).file = file0 := rfl
      rw [hfile]
      exact hload
  · rw [if_neg h1] at hp1
    have hclaimA : computePending (catalogUrls items)
        (resolvedOf (runLoop fetchR (initState ex file0)
          (shuffle1 (computePending (catalogUrls items) ex))).results) =
        [] := by
      rw [computePending, List.filter_eq_nil_iff]
      intro u hu
      by_cases hup : u ∈ computePending (catalogUrls items) ex
      · have hm : u ∈ shuffle1 (computePending (catalogUrls items) ex) :=
          (hperm1 _).mem_iff.mpr hup
        have hg := runLoop_results_get fetchR _ (initState ex file0) u hm
        obtain ⟨r, hr⟩ := Option.isSome_iff_exists.mp (hall u)
        rw [hr] at hg
        have hres : dictGet (resolvedOf (runLoop fetchR
            (initState ex file0) (shuffle1 (computePending
              (catalogUrls items) ex))).results) u =
            some (Json.str r) :=
          dictGet_resolvedOf_of_ne_null _ u (Json.str r)
            (by simpa [jsonOfImg] using hg) (by simp)
        simp [hres]
      · have hne : ¬((dictGet ex u).isNone = true) := by
          intro hx
          exact hup ((mem_computePending _ _ _).mpr ⟨hu, hx⟩)
        obtain ⟨w, hw⟩ : ∃ w, dictGet ex u = some w := by
          cases hx : dictGet ex u with
          | none => exact absurd (by simp [hx]) hne
          | some w => exact ⟨w, rfl⟩
        have hwnn := loadExisting_nonnull file0 ex u w hload hw
        have hpres := runLoop_results_preserve fetchR
          (shuffle1 (computePending (catalogUrls items) ex))
          (initState ex file0) u
          (fun hm => hup ((hperm1 _).mem_iff.mp hm))
        have hres : dictGet (resolvedOf (runLoop fetchR
            (initState ex file0) (shuffle1 (computePending
              (catalogUrls items) ex))).results) u = some w :=
          dictGet_resolvedOf_of_ne_null _ u w
            (by rw [hpres]; exact hw) hwnn
        simp [hres]
    refine ⟨finalFlush (runLoop fetchR (initState ex file0)
        (shuffle1 (computePending (catalogUrls items) ex))),
      initState (resolvedOf (runLoop fetchR (initState ex file0)
          (shuffle1 (computePending (catalogUrls items) ex))).results)
        (StoreFile.parsed (runLoop fetchR (initState ex file0)
          (shuffle1 (computePending (catalogUrls items) ex))).results),
      resolvedOf (runLoop fetchR (initState ex file0)
        (shuffle1 (computePending (catalogUrls items) ex))).results,
      hp1, ?_, rfl, hclaimA, rfl⟩
    have hfile : (finalFlush (runLoop fetchR (initState ex file0)
        (shuffle1 (computePending (catalogUrls items) ex)))).file =
        StoreFile.parsed (runLoop fetchR (initState ex file0)
          (shuffle1 (computePending (catalogUrls items) ex))).results :=
      rfl
    rw [hfile, mainRun_eq_of_load fetchR items
        (StoreFile.parsed (runLoop fetchR (initState ex file0)
          (shuffle1 (computePending (catalogUrls items) ex))).results)
        (resolvedOf (runLoop fetchR (initState ex file0)
          (shuffle1 (computePending (catalogUrls items) ex))).results)
        shuffle2 rfl,
      hclaimA, (hperm2 []).eq_nil]
    rfl

/-- Witness for the amended C2: catalog `{"a"}`, empty prior store, a
fetcher that always finds `"r"`; the rerun is pending-free and
fetch-free. -/
theorem resume_after_full_success_witness :
    loadExisting StoreFile.missing = Except.ok [] ∧
    (∀ l : List String, List.Perm (id l) l) ∧
    (∀ u : String,
      (((fun _ => some "r") : String → Option String) u).isSome) ∧
    ∃ s1 s2 ex2,
      mainRun (fun _ => some "r") [some "a"] StoreFile.missing id =
          Except.ok s1 ∧
      mainRun (fun _ => some "r") [some "a"] s1.file id = Except.ok s2 ∧
      loadExisting s1.file = Except.ok ex2 ∧
      computePending (catalogUrls [some "a"]) ex2 = [] ∧
      s2.fetched = [] :=
  ⟨rfl, fun l => List.Perm.refl l, fun _ => rfl,
   resume_after_full_success (fun _ => some "r") [some "a"]
     StoreFile.missing [] id id rfl (fun l => List.Perm.refl l)
     (fun l => List.Perm.refl l) (fun _ => rfl)⟩

/-- Witness for C4: a non-HTTP transport error on attempt 0 resolves
immediately to null in a single attempt. -/
theorem retry_classification_witness :
    fetch_image_url (fun _ => AttemptOutcome.otherError) 0 =
      (Except.ok none, 1) :=
  (retry_classification (fun _ => AttemptOutcome.otherError) 0).2
    (Or.inr (Or.inl rfl))
